import Mathlib

/-!
Verification of the gamedebug_core message-buffer library (src/src/lib.rs).

The library is a pair of global message buffers (`IMMEDIATE : MsgBuf<String>`
and `PERSISTENT : MsgBuf<PerEntry>`) plus a global frame counter.  All the
operations under verification are sequential in the claims (no concurrent
mutator), so the `Mutex<Vec<Msg>>` is modelled as a `List`, the `AtomicBool`
as a `Bool`, and the `AtomicU32` frame counter as a natural number kept below
2^32; u32 addition is modelled modulo 2^32 (wrapping semantics).
-/

namespace Gamedebug

/-- `SrcLoc` from src/src/lib.rs: source code location of an entry. -/
structure SrcLoc where
  file : String
  line : Nat
  column : Nat
deriving DecidableEq, Repr

/-- `PerEntry` from src/src/lib.rs: persistent info entry with a frame stamp.
`frame` holds a u32 value, modelled as a natural number. -/
structure PerEntry where
  frame : Nat
  info : String
  src_loc : Option SrcLoc
deriving DecidableEq, Repr

/-- `MsgBuf<Msg>` from src/src/lib.rs: `msgs : Mutex<Vec<Msg>>` modelled as a
list, `enabled : AtomicBool` modelled as a `Bool`.  The Rust `enabled()`
accessor is the field projection `MsgBuf.enabled`. -/
structure MsgBuf (Msg : Type) where
  msgs : List Msg
  enabled : Bool
deriving DecidableEq, Repr

namespace MsgBuf

/-- `MsgBuf::new(enabled)`: empty vector, given enabled flag. -/
def new (Msg : Type) (enabled : Bool) : MsgBuf Msg :=
  { msgs := [], enabled := enabled }

/-- `MsgBuf::push(msg)`: if `enabled` is loaded as true, append to the vector;
otherwise do nothing. -/
def push (b : MsgBuf Msg) (msg : Msg) : MsgBuf Msg :=
  if b.enabled then { b with msgs := b.msgs ++ [msg] } else b

/-- A sequence of `push` calls, in order. -/
def pushList (b : MsgBuf Msg) (ms : List Msg) : MsgBuf Msg :=
  ms.foldl push b

/-- `MsgBuf::toggle()`: load `enabled`, store its negation. -/
def toggle (b : MsgBuf Msg) : MsgBuf Msg :=
  { b with enabled := !b.enabled }

/-- `MsgBuf::clear()`: empty the vector unconditionally. -/
def clear (b : MsgBuf Msg) : MsgBuf Msg :=
  { b with msgs := [] }

/-- `MsgBuf::set_enabled(enabled)`: store the flag. -/
def set_enabled (b : MsgBuf Msg) (enabled : Bool) : MsgBuf Msg :=
  { b with enabled := enabled }

/-- The loop body of `MsgBuf::trim_old`: `while msgs.len() > max { msgs.remove(0); }`. -/
def trimList (l : List Msg) (max : Nat) : List Msg :=
  if l.length > max then
    match l with
    | [] => []
    | _ :: t => trimList t max
  else l

/-- `MsgBuf::trim_old(max)`: remove oldest entries until the length is at most `max`. -/
def trim_old (b : MsgBuf Msg) (max : Nat) : MsgBuf Msg :=
  { b with msgs := trimList b.msgs max }

/-- `MsgBuf::for_each(f)`: run a stateful callback once per entry, front to back.
The callback state `σ` models the `FnMut` closure environment. -/
def for_each (b : MsgBuf Msg) (f : Msg → σ → σ) (s : σ) : σ :=
  b.msgs.foldl (fun s m => f m s) s

/-- `MsgBuf::len()`. -/
def len (b : MsgBuf Msg) : Nat :=
  b.msgs.length

/-- `MsgBuf::is_empty()`: `self.len() == 0`. -/
def is_empty (b : MsgBuf Msg) : Bool :=
  b.len == 0

end MsgBuf

/-- The global `IMMEDIATE: MsgBuf<String> = MsgBuf::new(false)` in its initial state. -/
def IMMEDIATE : MsgBuf String := MsgBuf.new String false

/-- The global `PERSISTENT: MsgBuf<PerEntry> = MsgBuf::new(false)` in its initial state. -/
def PERSISTENT : MsgBuf PerEntry := MsgBuf.new PerEntry false

/-- 2^32, the modulus of the u32 frame counter. -/
def U32_MOD : Nat := 2 ^ 32

/-- `inc_frame()`: load the counter, store `frame + 1` (u32 wrapping arithmetic,
modelled modulo 2^32). -/
def inc_frame (c : Nat) : Nat :=
  (c + 1) % U32_MOD

/-- `frame()`: load the counter. -/
def frame (c : Nat) : Nat := c

/-- `per(info, src_loc)`: push a `PerEntry` stamped with the current frame onto
the persistent buffer.  `fc` is the current value of `FRAME_COUNTER`. -/
def per (fc : Nat) (buf : MsgBuf PerEntry) (info : String) (src_loc : Option SrcLoc) :
    MsgBuf PerEntry :=
  buf.push { frame := frame fc, info := info, src_loc := src_loc }

/-- The `imm_dbg!` macro: if `IMMEDIATE.enabled()` then format the value and
push the result, and in all cases the macro expression evaluates to `val`.
`fmt` stands for the `format!` invocation (with the file/line/stringified
expression prefix baked in); the `Bool` component records whether the
formatting work was performed. -/
def imm_dbg {α : Type} (buf : MsgBuf String) (fmt : α → String) (val : α) :
    MsgBuf String × α × Bool :=
  if buf.enabled then (buf.push (fmt val), val, true) else (buf, val, false)

/-- The `per_dbg!` macro: format the value unconditionally, call `per` with the
formatted text and the captured source location, and evaluate to `val`.
The `Bool` component records whether the formatting work was performed
(always `true` here: the macro has no `enabled()` check). -/
def per_dbg {α : Type} (fc : Nat) (buf : MsgBuf PerEntry) (fmt : α → String)
    (loc : SrcLoc) (val : α) : MsgBuf PerEntry × α × Bool :=
  (per fc buf (fmt val) (some loc), val, true)

/-- `inc_frame` iterated `N` times from the process-start counter value 0. -/
def advanceN (N : Nat) : Nat :=
  inc_frame^[N] 0

/-! ### Helper lemmas -/

theorem trimList_eq_drop {Msg : Type} (l : List Msg) (max : Nat) :
    MsgBuf.trimList l max = l.drop (l.length - max) := by
  induction l with
  | nil => simp [MsgBuf.trimList]
  | cons h t ih =>
    rw [MsgBuf.trimList]
    by_cases hlen : (h :: t).length > max
    · rw [if_pos hlen]
      have hle : max ≤ t.length := by
        simp only [List.length_cons] at hlen
        omega
      have : (h :: t).length - max = (t.length - max) + 1 := by
        simp only [List.length_cons]
        omega
      rw [ih, this, List.drop_succ_cons]
    · rw [if_neg hlen]
      have : (h :: t).length - max = 0 := by omega
      rw [this, List.drop_zero]

theorem foldl_append_collect {Msg : Type} (xs : List Msg) (acc : List Msg) :
    xs.foldl (fun l m => l ++ [m]) acc = acc ++ xs := by
  induction xs generalizing acc with
  | nil => simp
  | cons h t ih => simp [List.foldl_cons, ih]

theorem pushList_msgs_of_enabled {Msg : Type} (ms : List Msg) (b : MsgBuf Msg)
    (h : b.enabled = true) :
    (b.pushList ms).msgs = b.msgs ++ ms ∧ (b.pushList ms).enabled = true := by
  induction ms generalizing b with
  | nil => simp [MsgBuf.pushList, h]
  | cons m t ih =>
    have hpush : b.push m = { b with msgs := b.msgs ++ [m] } := by
      simp [MsgBuf.push, h]
    have hen : (b.push m).enabled = true := by rw [hpush]; exact h
    have step : b.pushList (m :: t) = (b.push m).pushList t := by
      simp [MsgBuf.pushList, List.foldl_cons]
    obtain ⟨h1, h2⟩ := ih (b.push m) hen
    refine ⟨?_, by rw [step]; exact h2⟩
    rw [step, h1, hpush]
    simp

theorem toggle_toggle {Msg : Type} (b : MsgBuf Msg) :
    b.toggle.toggle = b := by
  simp [MsgBuf.toggle]

theorem advanceN_eq (N : Nat) : advanceN N = N % U32_MOD := by
  induction N with
  | zero =>
    simp [advanceN, U32_MOD]
  | succ n ih =>
    have : advanceN (n + 1) = inc_frame (advanceN n) := by
      simp [advanceN, Function.iterate_succ_apply']
    rw [this, ih, inc_frame, Nat.mod_add_mod]

/-! ### Claim theorems -/

/-- C1: a sequence of `push` calls on an enabled `MsgBuf` (no concurrent
mutator) grows `len()` by exactly the number of pushes, and `for_each` visits
the pushed messages in call order, after any earlier entries (collecting the
visited messages in visit order yields the old entries followed by the pushed
messages). -/
theorem push_seq_enabled {Msg : Type} (b : MsgBuf Msg) (ms : List Msg)
    (h : b.enabled = true) :
    (b.pushList ms).len = b.len + ms.length ∧
    (b.pushList ms).for_each (fun m l => l ++ [m]) [] = b.msgs ++ ms := by
  obtain ⟨h1, _⟩ := pushList_msgs_of_enabled ms b h
  constructor
  · simp [MsgBuf.len, h1]
  · show ((b.pushList ms).msgs).foldl (fun l m => l ++ [m]) [] = b.msgs ++ ms
    rw [h1, foldl_append_collect]
    simp

/-- Witness for C1 at a concrete buffer and push sequence. -/
theorem push_seq_enabled_witness :
    ((MsgBuf.mk ["a"] true).pushList ["b", "c"]).len
        = (MsgBuf.mk ["a"] true).len + (["b", "c"] : List String).length ∧
    ((MsgBuf.mk ["a"] true).pushList ["b", "c"]).for_each (fun m l => l ++ [m]) []
        = (MsgBuf.mk ["a"] true).msgs ++ ["b", "c"] :=
  push_seq_enabled (MsgBuf.mk ["a"] true) ["b", "c"] rfl

/-- C2: with `enabled() == false`, `push` is a no-op: `len()` is unchanged and
the stored entry sequence is exactly what it was before. -/
theorem push_disabled_noop {Msg : Type} (b : MsgBuf Msg) (m : Msg)
    (h : b.enabled = false) :
    (b.push m).len = b.len ∧ (b.push m).msgs = b.msgs := by
  simp [MsgBuf.push, h]

/-- Witness for C2 at a concrete disabled buffer. -/
theorem push_disabled_noop_witness :
    ((MsgBuf.mk ["x"] false).push "y").len = (MsgBuf.mk ["x"] false).len ∧
    ((MsgBuf.mk ["x"] false).push "y").msgs = (MsgBuf.mk ["x"] false).msgs :=
  push_disabled_noop (MsgBuf.mk ["x"] false) "y" rfl

/-- 25 `per` calls (frame stamps 0..24, so the entries are distinguishable) on
an enabled, initially empty persistent buffer. -/
def per25 : MsgBuf PerEntry :=
  (List.range 25).foldl (fun b i => per i b "m" none) (MsgBuf.new PerEntry true)

/-- C3 counterexample: `per` performs no trimming, so pushing 25 entries into
the enabled, initially empty persistent buffer leaves 25 entries, not the 20
the claim states. -/
theorem per25_len_ne_20 : ¬ per25.len = 20 := by decide

/-- C3 amended: `per` itself never evicts — after 25 `per` calls on the
enabled, initially empty persistent buffer, all 25 entries remain; only an
explicit `trim_old(20)` call reduces the buffer to the documented cap of 20,
and it then holds exactly the 20 most recently pushed entries, oldest-first
order preserved. -/
theorem per25_trim_spec :
    per25.len = 25 ∧
    (per25.trim_old 20).len = 20 ∧
    (per25.trim_old 20).msgs
      = ((List.range 25).drop 5).map
          (fun i => { frame := i, info := "m", src_loc := none }) := by
  decide

/-- C4: `trim_old(max)` leaves `len() <= max`; it is a no-op when `max` is at
least the prior length; otherwise the remaining entries are exactly the last
`max` entries of the prior sequence in their original relative order. -/
theorem trim_old_spec {Msg : Type} (b : MsgBuf Msg) (max : Nat) :
    (b.trim_old max).len ≤ max ∧
    (b.len ≤ max → b.trim_old max = b) ∧
    (max < b.len → (b.trim_old max).msgs = b.msgs.drop (b.len - max)) := by
  have key : (b.trim_old max).msgs = b.msgs.drop (b.msgs.length - max) := by
    simp [MsgBuf.trim_old, trimList_eq_drop]
  refine ⟨?_, ?_, fun _ => key⟩
  · have : (b.trim_old max).len = b.msgs.length - (b.msgs.length - max) := by
      simp [MsgBuf.len, key]
    omega
  · intro hle
    have h0 : b.msgs.length - max = 0 := by
      simp [MsgBuf.len] at hle
      omega
    have hmsgs : (b.trim_old max).msgs = b.msgs := by
      rw [key, h0, List.drop_zero]
    cases b with
    | mk msgs enabled =>
      simp only [MsgBuf.trim_old] at hmsgs ⊢
      simp [hmsgs]

/-- Witness for C4: trimming a three-entry buffer to two keeps the last two. -/
theorem trim_old_spec_witness :
    ((MsgBuf.mk ["a", "b", "c"] true).trim_old 2).msgs
      = (MsgBuf.mk ["a", "b", "c"] true).msgs.drop
          ((MsgBuf.mk ["a", "b", "c"] true).len - 2) :=
  (trim_old_spec (MsgBuf.mk ["a", "b", "c"] true) 2).2.2 (by decide)

/-- C5: after `inc_frame` is called N times from the process-start counter
value 0 (N below 2^32, so no wrap), `per(info, src_loc)` on an enabled
persistent buffer appends exactly one entry, with `frame == N`, the given
info payload, and the given source location unchanged. -/
theorem per_frame_stamp (N : Nat) (b : MsgBuf PerEntry) (info : String)
    (loc : Option SrcLoc) (hb : b.enabled = true) (hN : N < U32_MOD) :
    (per (advanceN N) b info loc).msgs
      = b.msgs ++ [{ frame := N, info := info, src_loc := loc }] := by
  have h1 : advanceN N = N := by
    rw [advanceN_eq, Nat.mod_eq_of_lt hN]
  simp [per, frame, MsgBuf.push, hb, h1]

/-- Witness for C5 at N = 3 on a fresh enabled buffer. -/
theorem per_frame_stamp_witness :
    (per (advanceN 3) (MsgBuf.new PerEntry true) "x" none).msgs
      = (MsgBuf.new PerEntry true).msgs
          ++ [{ frame := 3, info := "x", src_loc := none }] :=
  per_frame_stamp 3 (MsgBuf.new PerEntry true) "x" none rfl (by decide)

/-- C6: `clear()` results in `len() == 0` and `is_empty() == true` for every
buffer state, whether enabled or disabled. -/
theorem clear_spec {Msg : Type} (b : MsgBuf Msg) :
    b.clear.len = 0 ∧ b.clear.is_empty = true := by
  simp [MsgBuf.clear, MsgBuf.len, MsgBuf.is_empty]

/-- C7: `toggle()` called 2n times leaves `enabled` at its original value, and
called 2n+1 times leaves it at the negation of its original value. -/
theorem toggle_parity {Msg : Type} (b : MsgBuf Msg) (n : Nat) :
    (MsgBuf.toggle^[2 * n] b).enabled = b.enabled ∧
    (MsgBuf.toggle^[2 * n + 1] b).enabled = !b.enabled := by
  have heven : MsgBuf.toggle^[2 * n] b = b := by
    induction n with
    | zero => simp
    | succ k ih =>
      have h2n : 2 * (k + 1) = 2 * k + 2 := by ring
      rw [h2n, Function.iterate_add_apply]
      have h2 : MsgBuf.toggle^[2] b = b := by
        simp [Function.iterate_succ_apply', toggle_toggle]
      rw [h2, ih]
  refine ⟨by rw [heven], ?_⟩
  rw [Function.iterate_succ_apply', heven]
  rfl

/-- C8: `inc_frame` adds exactly 1 for every counter value whose successor
still fits in a u32, and at the u32 maximum 2^32 - 1 it silently wraps the
counter to 0 (no error, no special handling). -/
theorem inc_frame_wrap_spec :
    inc_frame (2 ^ 32 - 1) = 0 ∧
    ∀ c : Nat, c + 1 < 2 ^ 32 → inc_frame c = c + 1 := by
  constructor
  · decide
  · intro c hc
    have : c + 1 < U32_MOD := hc
    simp [inc_frame, Nat.mod_eq_of_lt this]

/-- Witness for C8 at counter value 5. -/
theorem inc_frame_wrap_spec_witness : inc_frame 5 = 5 + 1 :=
  inc_frame_wrap_spec.2 5 (by decide)

/-- C9 counterexample: `per_dbg` does not check `enabled()` before formatting;
on a disabled persistent buffer it still performs the formatting work
(the recorded formatting flag is `true`, where the claim requires no
formatting when disabled). -/
theorem per_dbg_formats_when_disabled :
    (MsgBuf.new PerEntry false).enabled = false ∧
    (per_dbg 0 (MsgBuf.new PerEntry false) (fun n : Nat => toString n)
        (SrcLoc.mk "file" 1 2) 42).2.2 = true :=
  ⟨rfl, rfl⟩

/-- C9 amended: both helpers return the original evaluated value unchanged;
`imm_dbg` checks `enabled()` first, so on a disabled immediate buffer it
performs no formatting and appends no entry; `per_dbg` formats
unconditionally, but appends no entry when the persistent buffer is
disabled. -/
theorem dbg_helpers_spec {α : Type} (ib : MsgBuf String) (pb : MsgBuf PerEntry)
    (fmt : α → String) (fc : Nat) (loc : SrcLoc) (val : α) :
    (imm_dbg ib fmt val).2.1 = val ∧
    (per_dbg fc pb fmt loc val).2.1 = val ∧
    (ib.enabled = false → imm_dbg ib fmt val = (ib, val, false)) ∧
    (per_dbg fc pb fmt loc val).2.2 = true ∧
    (pb.enabled = false → (per_dbg fc pb fmt loc val).1 = pb) := by
  refine ⟨?_, rfl, ?_, rfl, ?_⟩
  · by_cases h : ib.enabled <;> simp [imm_dbg, h]
  · intro h
    simp [imm_dbg, h]
  · intro h
    simp [per_dbg, per, MsgBuf.push, h]

/-- Witness for C9 amended: disabled buffers, value 42. -/
theorem dbg_helpers_spec_witness :
    imm_dbg (MsgBuf.new String false) toString (42 : Nat)
      = (MsgBuf.new String false, 42, false) ∧
    (per_dbg 0 (MsgBuf.new PerEntry false) toString (SrcLoc.mk "f" 1 1)
        (42 : Nat)).1 = MsgBuf.new PerEntry false :=
  ⟨(dbg_helpers_spec (MsgBuf.new String false) (MsgBuf.new PerEntry false)
      toString 0 (SrcLoc.mk "f" 1 1) 42).2.2.1 rfl,
   (dbg_helpers_spec (MsgBuf.new String false) (MsgBuf.new PerEntry false)
      toString 0 (SrcLoc.mk "f" 1 1) 42).2.2.2.2 rfl⟩

/-- C10: both global buffers are constructed with `enabled == false` and no
entries (`MsgBuf::new(enabled)` yields `len() == 0` and the given flag), so at
process start every `push` and every `per` call is a no-op. -/
theorem globals_initial_state :
    IMMEDIATE.len = 0 ∧ IMMEDIATE.enabled = false ∧
    PERSISTENT.len = 0 ∧ PERSISTENT.enabled = false ∧
    (∀ (Msg : Type) (e : Bool),
      (MsgBuf.new Msg e).len = 0 ∧ (MsgBuf.new Msg e).enabled = e) ∧
    (∀ m : String, IMMEDIATE.push m = IMMEDIATE) ∧
    (∀ (fc : Nat) (info : String) (loc : Option SrcLoc),
      per fc PERSISTENT info loc = PERSISTENT) :=
  ⟨rfl, rfl, rfl, rfl, fun _ _ => ⟨rfl, rfl⟩, fun _ => rfl, fun _ _ _ => rfl⟩

end Gamedebug
